import Mathlib

set_option maxRecDepth 10000

/-!
Verification of the interrupt-driven frequency-synthesis programs of the
repository (ADuC841 / 8051 target).  The repository contains three C programs:

* Variant A (`part_000`, first program): a timer-0 ISR increments a 16-bit
  `TimerTick`; once it exceeds `NUM_INTS` it resets the counter and sets the
  bit flag `TimeOver`; the foreground loop spins on the flag, toggles P3.4
  and clears the flag.
* Variant B (`part_000`, second program): a timer-0 ISR adds the 8-bit
  `Increment` to a static 16-bit `Counter`; on overflow past 255 it inverts
  the output pin and masks the counter back to its low byte.  The foreground
  derives `Increment = (switches & 0x0F) + 1`, walks an LED pattern and
  busy-waits.
* Variant C (`FreqGen_timer2.c`): the foreground indexes an 8-entry reload
  table with the 3 low switch bits, writes the reload value into
  `RCAP2H`/`RCAP2L`, shows the selector on LEDs, edge-detects the INT0
  button to toggle a flash enable, and flashes an LED; the timer-2 ISR
  inverts the output pin and clears `TF2`.

Machine integers are modelled as `Nat` with explicit `% 2^w` where the C
type could wrap (`unsigned int` and `uint16` are 16-bit on this target,
`uint8` is 8-bit); `bit` variables are `Bool`.  `toggles`/`sets` fields are
ghost instrumentation counting output-toggle / flag-set events so that
frequency properties can be stated; they affect nothing else.
-/

/-! ### Variant A: fixed-count event flag (part_000, first program) -/

/-- `#define NUM_INTS 11059` — number of interrupts between events. -/
def NUM_INTS : Nat := 11059

/-- State touched by the Variant A ISR: `unsigned int TimerTick` (16-bit)
and `bit TimeOver`.  `sets` is a ghost counter of flag-set events. -/
structure AState where
  timerTick : Nat
  timeOver : Bool
  sets : Nat
deriving DecidableEq

/-- Variant A ISR `timer0`: `TimerTick++; if (TimerTick > NUM_INTS)
{ TimerTick = 0; TimeOver = 1; }`.  Parametrised over the compile-time
constant `numInts` (the source fixes it to `NUM_INTS`). -/
def timer0A (numInts : Nat) (s : AState) : AState :=
  let t := (s.timerTick + 1) % 65536
  if t > numInts then
    { timerTick := 0, timeOver := true, sets := s.sets + 1 }
  else
    { s with timerTick := t }

/-- Combined Variant A system state: ISR state plus the foreground-owned
output bit P3.4 (`P3 ^= 0x10`).  `toggles` is a ghost count of output
toggles. -/
structure SysA where
  timerTick : Nat
  timeOver : Bool
  p3bit4 : Bool
  toggles : Nat
deriving DecidableEq

/-- The Variant A ISR acting on the combined system state. -/
def tickA (numInts : Nat) (s : SysA) : SysA :=
  let t := (s.timerTick + 1) % 65536
  if t > numInts then
    { s with timerTick := 0, timeOver := true }
  else
    { s with timerTick := t }

/-- One service pass of the Variant A foreground loop body
(`while(!TimeOver); P3 ^= 0x10; TimeOver = 0;`): when the flag is set,
toggle P3.4 and clear the flag; otherwise keep spinning (no change). -/
def foregroundA (s : SysA) : SysA :=
  if s.timeOver then
    { s with p3bit4 := !s.p3bit4, timeOver := false, toggles := s.toggles + 1 }
  else
    s

/-- One tick of the combined Variant A system: the ISR fires, then the
spinning foreground services the flag before the next tick (the tick
period, 250 clock cycles, dwarfs the loop body). -/
def sysStepA (numInts : Nat) (s : SysA) : SysA :=
  foregroundA (tickA numInts s)

/-! ### Variant B: modulo-256 phase accumulator (part_000, second program) -/

/-- State of the Variant B ISR: `static uint16 Counter` and the output pin
`OUT_PIN` (P3.6).  `toggles` is a ghost count of pin inversions. -/
structure BState where
  counter : Nat
  outPin : Bool
  toggles : Nat
deriving DecidableEq

/-- Variant B ISR `timer0`: `Counter += Increment; if (Counter & 0xFF00)
{ OUT_PIN = ~OUT_PIN; Counter &= 0xFF; }` with `Counter : uint16`. -/
def timer0B (Increment : Nat) (s : BState) : BState :=
  let c := (s.counter + Increment) % 65536
  if c &&& 0xFF00 ≠ 0 then
    { counter := c &&& 0xFF, outPin := !s.outPin, toggles := s.toggles + 1 }
  else
    { s with counter := c }

/-- Foreground derivation of the increment (Variant B `main`):
`Increment = (Swit & LOW_NIBBLE) + 1` with `LOW_NIBBLE = 0x0F`. -/
def incrementOf (Swit : Nat) : Nat := (Swit &&& 0x0F) + 1

/-- A run of ISR invocations, each reading the increment current at its
invocation (the foreground may rewrite `Increment` between interrupts). -/
def runISRs (Is : List Nat) (s : BState) : BState :=
  Is.foldl (fun t I => timer0B I t) s

/-! ### Variant C: lookup-table reload engine (FreqGen_timer2.c) -/

/-- `code uint16 lookUp[8]` — reload values for 200, 300, 400, 600, 800,
1600, 2400, 3600 Hz. -/
def lookUp : List Nat := [37888, 47104, 51712, 56320, 58624, 62080, 63232, 64000]

/-- The output frequencies (Hz) documented for the eight table entries. -/
def freqTable : List Nat := [200, 300, 400, 600, 800, 1600, 2400, 3600]

/-- `freqNum = temp & FREQ_MASK` with `FREQ_MASK = 0x07`. -/
def freqNumOf (Swit : Nat) : Nat := Swit &&& 0x07

/-- `reloadVal = lookUp[freqNum]`. -/
def reloadValOf (Swit : Nat) : Nat := lookUp.getD (freqNumOf Swit) 0

/-- `RCAP2L = reloadVal & LOW_BYTE` with `LOW_BYTE = 0x00FF`. -/
def rcap2LOf (Swit : Nat) : Nat := reloadValOf Swit &&& 0x00FF

/-- `RCAP2H = reloadVal >> 8`. -/
def rcap2HOf (Swit : Nat) : Nat := reloadValOf Swit >>> 8

/-- Program-visible state of the Variant C program: the ISR-owned output
pin and hardware pending flag, and the foreground-owned flash enable,
button memory, LED bank and reload registers. -/
structure CState where
  outPin : Bool
  tf2 : Bool
  flash : Bool
  lastButton : Bool
  ledBank : Nat
  rcap2h : Nat
  rcap2l : Nat
deriving DecidableEq

/-- Variant C ISR `timer2`: `OUT_PIN = ~OUT_PIN; TF2 = 0;`. -/
def timer2 (s : CState) : CState :=
  { s with outPin := !s.outPin, tf2 := false }

/-! ### LED walking pattern (Variant B foreground, `LEDwalk`) -/

/-- The persistent `LEDwalk` state: `static uint8 pattern = 1` and
`static bit direction = 1` (1 = shift left). -/
structure LWState where
  pattern : Nat
  direction : Bool
deriving DecidableEq

/-- One call of `LEDwalk` (the persistent-state update; the `LED_BANK`
write is modelled by `LEDwalkOut`): shift the 8-bit pattern left or right,
reversing direction on reaching `0x80` resp. `0x01`. -/
def LEDwalk (s : LWState) : LWState :=
  if s.direction then
    let p := (s.pattern <<< 1) % 256
    if p == 0x80 then { pattern := p, direction := false }
    else { s with pattern := p }
  else
    let p := s.pattern >>> 1
    if p == 0x01 then { pattern := p, direction := true }
    else { s with pattern := p }

/-- The value a `LEDwalk` call writes to `LED_BANK`:
`LED_BANK = ~pattern` (8-bit complement, inverted to suit the wiring). -/
def LEDwalkOut (s : LWState) : Nat := (LEDwalk s).pattern ^^^ 0xFF

/-- Startup value of the `LEDwalk` statics. -/
def LEDwalkInit : LWState := { pattern := 1, direction := true }

/-! ### Button edge detection and flash (Variant C foreground) -/

/-- Foreground button state: `bit flash` and `bit lastButton`. -/
structure BtnState where
  flash : Bool
  lastButton : Bool
deriving DecidableEq

/-- Startup values: `bit flash = 1; bit lastButton = 0;`. -/
def btnInit (flash0 : Bool) : BtnState := { flash := flash0, lastButton := false }

/-- One foreground iteration's button check, given the raw `INT0` level:
`if (lastButton & ~INT0) { flash = ~flash; } lastButton = INT0;`. -/
def buttonStep (int0 : Bool) (s : BtnState) : BtnState :=
  { flash := if s.lastButton && !int0 then !s.flash else s.flash,
    lastButton := int0 }

/-- Run the button check over a list of raw levels, recording for each
iteration whether the flash enable toggled at that iteration (ghost). -/
def buttonRun (levels : List Bool) (s : BtnState) : BtnState × List Bool :=
  match levels with
  | [] => (s, [])
  | l :: ls =>
    let s1 := buttonStep l s
    let r := buttonRun ls s1
    (r.1, (s1.flash != s.flash) :: r.2)

/-- Flash LED state: the flash enable and the LED pin P3.4 (`LED_PIN`). -/
structure FlashState where
  flash : Bool
  ledPin : Bool
deriving DecidableEq

/-- One foreground iteration's flash update:
`if (flash) LED_PIN = ~LED_PIN; else LED_PIN = 1;`. -/
def flashUpdate (s : FlashState) : FlashState :=
  if s.flash then { s with ledPin := !s.ledPin } else { s with ledPin := true }

/-- Startup value of the flash enable: `bit flash = 1;`. -/
def flashInit : Bool := true

/-! ### Busy-wait delay (both files define the identical `delay`) -/

/-- The delay loop `for (i = 0; i < delayVal; i++) { }`, counting its
iterations.  `i` is a `uint16`; the increment cannot wrap because the loop
exits as soon as `i` reaches `delayVal ≤ 65535`. -/
def delayLoop (delayVal i : Nat) : Nat :=
  if i < delayVal then delayLoop delayVal (i + 1) + 1 else 0
termination_by delayVal - i

/-- `delay(delayVal)`: number of iterations the empty loop executes. -/
def delayIters (delayVal : Nat) : Nat := delayLoop delayVal 0

/-! ## Helper lemmas -/

/-- Bitwise facts used by the Variant B ISR on its reachable range
(`counter ≤ 255`, increment ≤ 16, so the fresh sum is at most 271):
`c & 0xFF00` is nonzero exactly when `c ≥ 256`, and `c & 0xFF = c % 256`. -/
lemma land_facts_le271 : ∀ c : Fin 272,
    (decide (c.val &&& 0xFF00 ≠ 0) = decide (256 ≤ c.val)) ∧
    c.val &&& 0xFF = c.val % 256 := by decide

/-- Low-nibble mask bound: `s & 0x0F ≤ 15` for any byte. -/
lemma land_nibble_le : ∀ s : Fin 256, s.val &&& 0x0F ≤ 15 := by decide

/-- Closed form of `delayLoop`. -/
lemma delayLoop_eq (d : Nat) : ∀ k i, d - i ≤ k → delayLoop d i = d - i := by
  intro k
  induction k with
  | zero =>
    intro i h
    have hi : ¬ i < d := by omega
    rw [delayLoop]
    simp [hi]
    omega
  | succ n ih =>
    intro i h
    rw [delayLoop]
    by_cases hi : i < d
    · simp only [hi, if_true]
      rw [ih (i + 1) (by omega)]
      omega
    · simp [hi]
      omega

/-! ## Claim theorems -/

/-- C5.  Variant C reload-value selection: for every switch byte, the
3-bit selector is in 0..7, the pair written to `RCAP2H`/`RCAP2L`
recombines to exactly the table entry `lookUp[selector]`, the table is
the given strictly increasing sequence, and each entry equals
`65536 - clock/(2·f)` for the documented frequency `f`
(clock = 11 059 200 Hz). -/
theorem variantC_reload_selection (Swit : Nat) (hsw : Swit < 256) :
    freqNumOf Swit < 8 ∧
    rcap2HOf Swit * 256 + rcap2LOf Swit = lookUp.getD (freqNumOf Swit) 0 ∧
    lookUp = [37888, 47104, 51712, 56320, 58624, 62080, 63232, 64000] ∧
    List.Pairwise (· < ·) lookUp ∧
    lookUp = freqTable.map (fun f => 65536 - 11059200 / (2 * f)) := by
  have h : ∀ s : Fin 256, freqNumOf s.val < 8 ∧
      rcap2HOf s.val * 256 + rcap2LOf s.val = lookUp.getD (freqNumOf s.val) 0 := by
    decide
  have hs := h ⟨Swit, hsw⟩
  exact ⟨hs.1, hs.2, by decide, by decide, by decide⟩

/-- C5 witness at `Swit = 0xAD` (selector 5). -/
theorem variantC_reload_selection_witness :
    (0xAD : Nat) < 256 ∧ freqNumOf 0xAD < 8 ∧
    rcap2HOf 0xAD * 256 + rcap2LOf 0xAD = lookUp.getD (freqNumOf 0xAD) 0 := by
  refine ⟨by decide, ?_, ?_⟩
  · exact (variantC_reload_selection 0xAD (by decide)).1
  · exact (variantC_reload_selection 0xAD (by decide)).2.1

/-- C6.  Variant C ISR frame property: every invocation of `timer2` flips
the output pin exactly once, clears the pending flag `TF2`, and leaves the
flash enable, button memory, LED bank and both reload registers
unchanged. -/
theorem variantC_isr_frame (s : CState) :
    (timer2 s).outPin = !s.outPin ∧
    (timer2 s).tf2 = false ∧
    (timer2 s).flash = s.flash ∧
    (timer2 s).lastButton = s.lastButton ∧
    (timer2 s).ledBank = s.ledBank ∧
    (timer2 s).rcap2h = s.rcap2h ∧
    (timer2 s).rcap2l = s.rcap2l :=
  ⟨rfl, rfl, rfl, rfl, rfl, rfl, rfl⟩

/-- C7.  LED walking pattern bounce: from `pattern = 1`, `direction = left`,
seven calls reach `0x80` with the direction flipped to right; fourteen
calls return exactly to the start state, and no smaller positive number of
calls does, so the walk has period 14. -/
theorem ledwalk_bounce :
    LEDwalk^[7] LEDwalkInit = { pattern := 0x80, direction := false } ∧
    LEDwalk^[14] LEDwalkInit = LEDwalkInit ∧
    (∀ k, k < 14 → 0 < k → LEDwalk^[k] LEDwalkInit ≠ LEDwalkInit) := by
  refine ⟨by decide, by decide, ?_⟩
  decide

/-- C8.  Button edge detection: from `lastButton = 0` and any initial
flash state, the raw active-low level sequence `[1,1,0,0,1]` toggles the
flash enable exactly once, at the third iteration (the 1→0 transition);
sustained 0 and the 0→1 release toggle nothing. -/
theorem button_edge_detection (f0 : Bool) :
    (buttonRun [true, true, false, false, true] (btnInit f0)).2 =
      [false, false, true, false, false] ∧
    (buttonRun [true, true, false, false, true] (btnInit f0)).1.flash = !f0 := by
  cases f0 <;> exact ⟨by decide, by decide⟩

/-- C9.  Flash-disabled behavior: `flash` starts at 1; with the enable set
the LED pin is toggled exactly once per iteration, and with it clear the
pin is actively driven to 1 (LED off) whatever its previous state; the
update never changes the enable itself. -/
theorem flash_disabled_behavior (f p : Bool) :
    flashInit = true ∧
    (flashUpdate { flash := true, ledPin := p }).ledPin = !p ∧
    (flashUpdate { flash := false, ledPin := p }).ledPin = true ∧
    (flashUpdate { flash := f, ledPin := p }).flash = f := by
  cases f <;> cases p <;> exact ⟨rfl, rfl, rfl, rfl⟩

/-- C10.  Delay totality: for every 16-bit argument the busy-wait loop
terminates after exactly `delayVal` iterations (`delayLoop` is a total
function, and the count is exact, including zero iterations for
`delayVal = 0`); the loop body is empty, so no state other than the local
counter is touched. -/
theorem delay_total (delayVal : Nat) (h : delayVal < 65536) :
    delayIters delayVal = delayVal := by
  unfold delayIters
  rw [delayLoop_eq delayVal delayVal 0 (by omega)]
  omega

/-- C10 witness at `delayVal = 60000` (the argument used by both mains),
and at 0. -/
theorem delay_total_witness : delayIters 60000 = 60000 ∧ delayIters 0 = 0 :=
  ⟨delay_total 60000 (by decide), delay_total 0 (by decide)⟩

/-! ## Variant B: step and iterate characterizations -/

/-- Arithmetic reading of one Variant B ISR invocation on a reachable
state: the 16-bit addition cannot wrap, the high-byte test is exactly the
overflow test `≥ 256`, and masking is reduction mod 256. -/
lemma timer0B_spec (I : Nat) (hI : I ≤ 16) (s : BState) (hs : s.counter ≤ 255) :
    timer0B I s =
      if 256 ≤ s.counter + I then
        { counter := (s.counter + I) % 256, outPin := !s.outPin,
          toggles := s.toggles + 1 }
      else
        { s with counter := s.counter + I } := by
  have hfacts := land_facts_le271 ⟨s.counter + I, by omega⟩
  have hhi : decide ((s.counter + I) &&& 0xFF00 ≠ 0) = decide (256 ≤ s.counter + I) :=
    hfacts.1
  have hlow : (s.counter + I) &&& 0xFF = (s.counter + I) % 256 := hfacts.2
  have hmod : (s.counter + I) % 65536 = s.counter + I := Nat.mod_eq_of_lt (by omega)
  unfold timer0B
  simp only [hmod]
  by_cases hov : 256 ≤ s.counter + I
  · rw [if_pos (of_decide_eq_true (hhi.trans (decide_eq_true hov))), if_pos hov, hlow]
  · rw [if_neg (of_decide_eq_false (hhi.trans (decide_eq_false hov))), if_neg hov]

/-- One Variant B ISR invocation keeps the accumulator in range. -/
lemma timer0B_counter_le (I : Nat) (hI : I ≤ 16) (s : BState) (hs : s.counter ≤ 255) :
    (timer0B I s).counter ≤ 255 := by
  rw [timer0B_spec I hI s hs]
  by_cases hov : 256 ≤ s.counter + I
  · rw [if_pos hov]
    dsimp only
    omega
  · rw [if_neg hov]
    dsimp only
    omega

/-- Any run of ISR invocations with in-range increments keeps the
accumulator in range. -/
lemma runISRs_counter_le (Is : List Nat) :
    ∀ s : BState, (∀ I ∈ Is, I ≤ 16) → s.counter ≤ 255 →
      (runISRs Is s).counter ≤ 255 := by
  induction Is with
  | nil => intro s _ hs; exact hs
  | cons I Is ih =>
    intro s hIs hs
    simp only [runISRs, List.foldl_cons] at ih ⊢
    exact ih (timer0B I s)
      (fun J hJ => hIs J (List.mem_cons_of_mem _ hJ))
      (timer0B_counter_le I (hIs I (List.mem_cons_self _ _)) s hs)

/-- Closed form of `N` Variant B ticks at fixed increment from a cleared
accumulator: the counter holds `N·I mod 256` and the pin has toggled
`⌊N·I/256⌋` times. -/
lemma timer0B_iterate (I : Nat) (hI : I ≤ 16) (p0 : Bool) (N : Nat) :
    ((timer0B I)^[N] { counter := 0, outPin := p0, toggles := 0 }).counter = N * I % 256 ∧
    ((timer0B I)^[N] { counter := 0, outPin := p0, toggles := 0 }).toggles = N * I / 256 := by
  induction N with
  | zero => simp
  | succ n ih =>
    obtain ⟨hc, ht⟩ := ih
    have hcle : ((timer0B I)^[n] { counter := 0, outPin := p0, toggles := 0 }).counter ≤ 255 := by
      rw [hc]; omega
    rw [Function.iterate_succ_apply', timer0B_spec I hI _ hcle]
    have hml : (n + 1) * I = n * I + I := by ring
    by_cases hov : 256 ≤ ((timer0B I)^[n] { counter := 0, outPin := p0, toggles := 0 }).counter + I
    · rw [if_pos hov]
      refine ⟨?_, ?_⟩ <;> dsimp only <;> rw [hml] <;> omega
    · rw [if_neg hov]
      refine ⟨?_, ?_⟩ <;> dsimp only <;> rw [hml] <;> omega

/-! ## Variant A: step and iterate characterizations -/

/-- Arithmetic reading of one Variant A ISR invocation on a reachable
state (`TimerTick ≤ NUM_INTS`): the 16-bit increment cannot wrap, and the
`> NUM_INTS` test fires exactly when the counter was already at the
threshold. -/
lemma timer0A_spec (K : Nat) (hK : K + 1 < 65536) (s : AState) (hs : s.timerTick ≤ K) :
    timer0A K s =
      if s.timerTick = K then
        { timerTick := 0, timeOver := true, sets := s.sets + 1 }
      else
        { s with timerTick := s.timerTick + 1 } := by
  have hmod : (s.timerTick + 1) % 65536 = s.timerTick + 1 := Nat.mod_eq_of_lt (by omega)
  unfold timer0A
  simp only [hmod]
  by_cases h : s.timerTick = K
  · rw [if_pos (by omega), if_pos h]
  · rw [if_neg (by omega), if_neg h]

/-- Closed form of `N` Variant A ticks with no foreground servicing:
the counter cycles mod `K+1`, the flag is set from tick `K+1` on and
stays set, and the flag has been raised `⌊N/(K+1)⌋` times. -/
lemma timer0A_iterate (K : Nat) (hK : K + 1 < 65536) (N : Nat) :
    (timer0A K)^[N] { timerTick := 0, timeOver := false, sets := 0 } =
      { timerTick := N % (K + 1), timeOver := decide (K + 1 ≤ N),
        sets := N / (K + 1) } := by
  induction N with
  | zero =>
    simp [Nat.zero_mod, Nat.zero_div, decide_eq_false (by omega : ¬(K + 1 ≤ 0))]
  | succ n ih =>
    rw [Function.iterate_succ_apply', ih,
      timer0A_spec K hK _ (by dsimp only; exact Nat.le_of_lt_succ (Nat.mod_lt _ (by omega)))]
    dsimp only
    have hK1 : 0 < K + 1 := Nat.succ_pos K
    have hdm := Nat.div_add_mod n (K + 1)
    have hmor : n % (K + 1) = n ∨ K + 1 ≤ n := by
      rcases Nat.lt_or_ge n (K + 1) with h | h
      · exact Or.inl (Nat.mod_eq_of_lt h)
      · exact Or.inr h
    have hr : n % (K + 1) < K + 1 := Nat.mod_lt _ hK1
    by_cases h : n % (K + 1) = K
    · rw [if_pos h]
      have hN1 : n + 1 = (K + 1) * (n / (K + 1) + 1) := by
        rw [Nat.mul_succ]; omega
      have h1 : (n + 1) % (K + 1) = 0 := by rw [hN1]; exact Nat.mul_mod_right _ _
      have h2 : (n + 1) / (K + 1) = n / (K + 1) + 1 := by
        rw [hN1]; exact Nat.mul_div_cancel_left _ hK1
      have h3 : decide (K + 1 ≤ n + 1) = true := decide_eq_true (by omega)
      rw [h1, h2, h3]
    · rw [if_neg h]
      have hN1 : n + 1 = (n % (K + 1) + 1) + (K + 1) * (n / (K + 1)) := by omega
      have h1 : (n + 1) % (K + 1) = n % (K + 1) + 1 := by
        rw [hN1, Nat.add_mul_mod_self_left, Nat.mod_eq_of_lt (by omega)]
      have h2 : (n + 1) / (K + 1) = n / (K + 1) := by
        rw [hN1, Nat.add_mul_div_left _ _ hK1, Nat.div_eq_of_lt (by omega), Nat.zero_add]
      have h3 : decide (K + 1 ≤ n + 1) = decide (K + 1 ≤ n) :=
        decide_eq_decide.mpr (by omega)
      rw [h1, h2, h3]

/-- Arithmetic reading of one combined Variant A system step from a
serviced state (flag clear, counter in range): at the threshold the ISR
raises the flag and the spinning foreground immediately toggles P3.4 and
clears it; below the threshold only the counter advances. -/
lemma sysStepA_spec (K : Nat) (hK : K + 1 < 65536) (s : SysA)
    (hs : s.timerTick ≤ K) (hf : s.timeOver = false) :
    sysStepA K s =
      if s.timerTick = K then
        { timerTick := 0, timeOver := false, p3bit4 := !s.p3bit4,
          toggles := s.toggles + 1 }
      else
        { s with timerTick := s.timerTick + 1 } := by
  have hmod : (s.timerTick + 1) % 65536 = s.timerTick + 1 := Nat.mod_eq_of_lt (by omega)
  unfold sysStepA tickA foregroundA
  simp only [hmod]
  by_cases h : s.timerTick = K
  · rw [if_pos (by omega : s.timerTick + 1 > K)]
    dsimp only
    rw [if_pos rfl, if_pos h]
  · rw [if_neg (by omega : ¬s.timerTick + 1 > K)]
    dsimp only
    rw [if_neg (by simp [hf]), if_neg h]

/-- Closed form of `N` combined Variant A system steps: the counter cycles
mod `K+1`, the flag is always serviced, the output has toggled
`⌊N/(K+1)⌋` times and P3.4 holds the parity of that count. -/
lemma sysA_iterate (K : Nat) (hK : K + 1 < 65536) (p0 : Bool) (N : Nat) :
    (sysStepA K)^[N] { timerTick := 0, timeOver := false, p3bit4 := p0, toggles := 0 } =
      { timerTick := N % (K + 1), timeOver := false,
        p3bit4 := p0 ^^ decide (N / (K + 1) % 2 = 1), toggles := N / (K + 1) } := by
  induction N with
  | zero =>
    simp [Nat.zero_mod, Nat.zero_div]
  | succ n ih =>
    rw [Function.iterate_succ_apply', ih,
      sysStepA_spec K hK _ (by dsimp only; exact Nat.le_of_lt_succ (Nat.mod_lt _ (by omega))) rfl]
    dsimp only
    have hK1 : 0 < K + 1 := Nat.succ_pos K
    have hdm := Nat.div_add_mod n (K + 1)
    have hmor : n % (K + 1) = n ∨ K + 1 ≤ n := by
      rcases Nat.lt_or_ge n (K + 1) with h | h
      · exact Or.inl (Nat.mod_eq_of_lt h)
      · exact Or.inr h
    have hr : n % (K + 1) < K + 1 := Nat.mod_lt _ hK1
    have hxor : ∀ a b : Bool, (!(a ^^ b)) = (a ^^ (!b)) := by decide
    by_cases h : n % (K + 1) = K
    · rw [if_pos h]
      have hN1 : n + 1 = (K + 1) * (n / (K + 1) + 1) := by
        rw [Nat.mul_succ]; omega
      have h1 : (n + 1) % (K + 1) = 0 := by rw [hN1]; exact Nat.mul_mod_right _ _
      have h2 : (n + 1) / (K + 1) = n / (K + 1) + 1 := by
        rw [hN1]; exact Nat.mul_div_cancel_left _ hK1
      have hpar : decide ((n / (K + 1) + 1) % 2 = 1) = !decide (n / (K + 1) % 2 = 1) := by
        by_cases hq : n / (K + 1) % 2 = 1
        · rw [decide_eq_true hq, decide_eq_false (by omega)]
          decide
        · rw [decide_eq_false hq, decide_eq_true (by omega)]
          decide
      rw [h1, h2, hpar, hxor]
    · rw [if_neg h]
      have hN1 : n + 1 = (n % (K + 1) + 1) + (K + 1) * (n / (K + 1)) := by omega
      have h1 : (n + 1) % (K + 1) = n % (K + 1) + 1 := by
        rw [hN1, Nat.add_mul_mod_self_left, Nat.mod_eq_of_lt (by omega)]
      have h2 : (n + 1) / (K + 1) = n / (K + 1) := by
        rw [hN1, Nat.add_mul_div_left _ _ hK1, Nat.div_eq_of_lt (by omega), Nat.zero_add]
      rw [h1, h2]

/-! ## Remaining claim theorems -/

/-- C1.  Variant B frequency law: from `Counter = 0`, for any fixed
increment in 1..16, the cumulative toggle count after `N` ticks is exactly
`⌊N·Increment/256⌋`, hence within 1 of `N·Increment/256`
(`256·T ≤ N·I < 256·T + 256`), so the long-run toggle rate is exactly
`Increment/256` per tick. -/
theorem variantB_toggle_rate (I N : Nat) (p0 : Bool) (h1 : 1 ≤ I) (h2 : I ≤ 16) :
    ((timer0B I)^[N] { counter := 0, outPin := p0, toggles := 0 }).toggles = N * I / 256 ∧
    256 * ((timer0B I)^[N] { counter := 0, outPin := p0, toggles := 0 }).toggles ≤ N * I ∧
    N * I < 256 * ((timer0B I)^[N] { counter := 0, outPin := p0, toggles := 0 }).toggles + 256 := by
  obtain ⟨hc, ht⟩ := timer0B_iterate I h2 p0 N
  refine ⟨ht, ?_, ?_⟩ <;> rw [ht] <;> omega

/-- C1 witness at `Increment = 3`, `N = 100`. -/
theorem variantB_toggle_rate_witness :
    (1 ≤ 3 ∧ 3 ≤ 16) ∧
    ((timer0B 3)^[100] { counter := 0, outPin := true, toggles := 0 }).toggles = 100 * 3 / 256 ∧
    256 * ((timer0B 3)^[100] { counter := 0, outPin := true, toggles := 0 }).toggles ≤ 100 * 3 ∧
    100 * 3 < 256 * ((timer0B 3)^[100] { counter := 0, outPin := true, toggles := 0 }).toggles + 256 :=
  ⟨⟨by decide, by decide⟩, variantB_toggle_rate 3 100 true (by decide) (by decide)⟩

/-- C2.  Variant B accumulator invariant: the foreground mapping
`(switches & 0x0F) + 1` always yields an increment in 1..16; starting in
range, any number of interleaved ISR invocations with such increments
keeps `Counter` in [0,255]; and a single invocation that overflows past
255 toggles the pin exactly once and wraps the counter by masking its low
byte. -/
theorem variantB_accumulator_invariant (Swit : Nat) (hsw : Swit < 256)
    (Is : List Nat) (hIs : ∀ I ∈ Is, I ≤ 16) (s : BState) (hs : s.counter ≤ 255) :
    (1 ≤ incrementOf Swit ∧ incrementOf Swit ≤ 16) ∧
    (runISRs Is s).counter ≤ 255 ∧
    (∀ t : BState, t.counter ≤ 255 → ∀ I, I ≤ 16 → 256 ≤ t.counter + I →
      timer0B I t = { counter := (t.counter + I) &&& 0xFF, outPin := !t.outPin,
                      toggles := t.toggles + 1 }) := by
  refine ⟨?_, runISRs_counter_le Is s hIs hs, ?_⟩
  · have hnib : Swit &&& 0x0F ≤ 15 := land_nibble_le ⟨Swit, hsw⟩
    unfold incrementOf
    omega
  · intro t ht I hI hov
    have hlow : (t.counter + I) &&& 0xFF = (t.counter + I) % 256 :=
      (land_facts_le271 ⟨t.counter + I, by omega⟩).2
    rw [timer0B_spec I hI t ht, if_pos hov, hlow]

/-- C2 witness at `Swit = 0xA5`, three interleaved interrupts with
increments 16, 16, 3, starting from `Counter = 250`. -/
theorem variantB_accumulator_invariant_witness :
    ((0xA5 : Nat) < 256 ∧ ({ counter := 250, outPin := false, toggles := 0 } : BState).counter ≤ 255) ∧
    (1 ≤ incrementOf 0xA5 ∧ incrementOf 0xA5 ≤ 16) ∧
    (runISRs [16, 16, 3] { counter := 250, outPin := false, toggles := 0 }).counter ≤ 255 ∧
    (∀ t : BState, t.counter ≤ 255 → ∀ I, I ≤ 16 → 256 ≤ t.counter + I →
      timer0B I t = { counter := (t.counter + I) &&& 0xFF, outPin := !t.outPin,
                      toggles := t.toggles + 1 }) :=
  ⟨⟨by decide, by decide⟩,
   variantB_accumulator_invariant 0xA5 (by decide) [16, 16, 3]
     (by intro I hI; fin_cases hI <;> decide)
     { counter := 250, outPin := false, toggles := 0 } (by decide)⟩

/-- C3.  Variant A event timing and lost-event semantics: with threshold
`K` and `TimerTick = 0`, the flag is still clear after any `n ≤ K` ticks,
is set on the `(K+1)`-th tick, is raised exactly `⌊N/(K+1)⌋` times in `N`
ticks (once per `K+1` ticks), and if `M ≥ K+1` ticks pass with no
foreground clearing, the foreground still reads exactly the single flag
value 1 — intervening events are lost, not queued. -/
theorem variantA_event_timing (K N M : Nat) (hK : K + 1 < 65536) :
    (∀ n, n ≤ K →
      ((timer0A K)^[n] { timerTick := 0, timeOver := false, sets := 0 }).timeOver = false) ∧
    ((timer0A K)^[K + 1] { timerTick := 0, timeOver := false, sets := 0 }).timeOver = true ∧
    ((timer0A K)^[N] { timerTick := 0, timeOver := false, sets := 0 }).sets = N / (K + 1) ∧
    (K + 1 ≤ M →
      ((timer0A K)^[M] { timerTick := 0, timeOver := false, sets := 0 }).timeOver = true) := by
  refine ⟨?_, ?_, ?_, ?_⟩
  · intro n hn
    rw [timer0A_iterate K hK n]
    exact decide_eq_false (by omega)
  · rw [timer0A_iterate K hK (K + 1)]
    exact decide_eq_true (by omega)
  · rw [timer0A_iterate K hK N]
  · intro hM
    rw [timer0A_iterate K hK M]
    exact decide_eq_true hM

/-- C3 witness at `K = 3`, `N = 10`, `M = 9`. -/
theorem variantA_event_timing_witness :
    (3 + 1 < 65536) ∧
    (∀ n, n ≤ 3 →
      ((timer0A 3)^[n] { timerTick := 0, timeOver := false, sets := 0 }).timeOver = false) ∧
    ((timer0A 3)^[3 + 1] { timerTick := 0, timeOver := false, sets := 0 }).timeOver = true ∧
    ((timer0A 3)^[10] { timerTick := 0, timeOver := false, sets := 0 }).sets = 10 / (3 + 1) ∧
    (3 + 1 ≤ 9 →
      ((timer0A 3)^[9] { timerTick := 0, timeOver := false, sets := 0 }).timeOver = true) :=
  ⟨by decide, variantA_event_timing 3 10 9 (by decide)⟩

/-- C4 counterexample: with the source's `NUM_INTS = 11059`, after
`2 × NUM_INTS` ticks of the combined system the output has toggled only
once and sits inverted relative to its start value — the square wave has
*not* completed a full cycle every `2 × NUM_INTS` ticks as claimed (the
ISR fires on the `(NUM_INTS+1)`-th tick, not the `NUM_INTS`-th). -/
theorem variantA_period_counterexample :
    ((sysStepA NUM_INTS)^[2 * NUM_INTS]
      { timerTick := 0, timeOver := false, p3bit4 := false, toggles := 0 }).toggles = 1 ∧
    ((sysStepA NUM_INTS)^[2 * NUM_INTS]
      { timerTick := 0, timeOver := false, p3bit4 := false, toggles := 0 }).p3bit4 = true := by
  rw [sysA_iterate NUM_INTS (by decide) false (2 * NUM_INTS)]
  exact ⟨by decide, by decide⟩

/-- C4 (amended).  Variant A output period: the combined system toggles
the output once per `K+1` ticks (`⌊N/(K+1)⌋` toggles in `N` ticks), and
every `2·(K+1)` ticks the whole state — including the output bit —
returns exactly to its start, so the square wave's period is
`2·(NUM_INTS+1)` tick periods, not `2·NUM_INTS`. -/
theorem variantA_output_period (K m N : Nat) (hK : K + 1 < 65536) (p0 : Bool) :
    ((sysStepA K)^[N] { timerTick := 0, timeOver := false, p3bit4 := p0, toggles := 0 }).toggles
      = N / (K + 1) ∧
    (sysStepA K)^[2 * (K + 1) * m] { timerTick := 0, timeOver := false, p3bit4 := p0, toggles := 0 }
      = { timerTick := 0, timeOver := false, p3bit4 := p0, toggles := 2 * m } := by
  constructor
  · rw [sysA_iterate K hK p0 N]
  · rw [sysA_iterate K hK p0 (2 * (K + 1) * m)]
    have h0 : 2 * (K + 1) * m = (K + 1) * (2 * m) := by ring
    have h1 : 2 * (K + 1) * m % (K + 1) = 0 := by
      rw [h0]; exact Nat.mul_mod_right _ _
    have h2 : 2 * (K + 1) * m / (K + 1) = 2 * m := by
      rw [h0]; exact Nat.mul_div_cancel_left _ (by omega)
    have h3 : decide (2 * m % 2 = 1) = false := decide_eq_false (by omega)
    rw [h1, h2, h3, Bool.xor_false]

/-- C4 witness at `K = 3`, `m = 1`, `N = 9`. -/
theorem variantA_output_period_witness :
    (3 + 1 < 65536) ∧
    ((sysStepA 3)^[9] { timerTick := 0, timeOver := false, p3bit4 := false, toggles := 0 }).toggles
      = 9 / (3 + 1) ∧
    (sysStepA 3)^[2 * (3 + 1) * 1] { timerTick := 0, timeOver := false, p3bit4 := false, toggles := 0 }
      = { timerTick := 0, timeOver := false, p3bit4 := false, toggles := 2 * 1 } :=
  ⟨by decide, variantA_output_period 3 1 9 (by decide) false⟩
